import Mathlib

/-!
Shallow embedding of the tkfx firmware core (MCU API, DMA engine, S2LP
hardware layer) and proofs of the specification claims about it.

Conventions:
* machine bytes and words are modelled as `Nat`; overflow is irrelevant for
  the properties below (indices, lengths, addresses all stay small);
* fallible C calls are modelled with `Option`/`Except`, a `none`/`.error`
  standing for a non-success status of the callee;
* functions that drive hardware are modelled as producers of explicit event
  traces, so that ordering properties (chip-select bracketing, timer
  arm/disarm, watchdog reloads) are statable;
* the distinct MCU API status codes are an inductive type, which keeps the
  codes distinguishable without fixing their numeric values (those live in
  the Sigfox library headers, outside this repository's sources).
-/

namespace Tkfx

/-- MCU API status codes returned by the `MCU_API_*` functions
(`sigfox_types.h` defines their numeric values; only their identity
matters here). -/
inductive McuStatus where
  | SFX_ERR_NONE
  | MCU_ERR_API_MALLOC
  | MCU_ERR_API_FREE
  | MCU_ERR_API_AES
  | MCU_ERR_API_GETNVMEM
  | MCU_ERR_API_SETNVMEM
  | MCU_ERR_API_TIMER_END
  deriving DecidableEq, Repr

/-! ### MCU_API_malloc / MCU_API_free (`src/src/sigfox/mcu_api.c:60-82`)

The C code owns a single static buffer `mcu_api_ctx.malloc_buf` of
`MCU_API_MALLOC_BUFFER_SIZE` bytes and hands out its address.  The buffer's
address is a link-time constant; the embedding takes it as a parameter
`buf_addr` so that the theorems hold for whatever address the linker picks. -/

/-- `#define MCU_API_MALLOC_BUFFER_SIZE 200` -/
def MCU_API_MALLOC_BUFFER_SIZE : Nat := 200

/-- `MCU_API_malloc`: rejects a size above `MCU_API_MALLOC_BUFFER_SIZE`,
otherwise returns the address of the static buffer. -/
def MCU_API_malloc (buf_addr : Nat) (size : Nat) : McuStatus × Option Nat :=
  if size > MCU_API_MALLOC_BUFFER_SIZE then (McuStatus.MCU_ERR_API_MALLOC, none)
  else (McuStatus.SFX_ERR_NONE, some buf_addr)

/-- `MCU_API_free`: ignores its argument and reports success. -/
def MCU_API_free (_ptr : Nat) : McuStatus :=
  McuStatus.SFX_ERR_NONE

/-! ### S2LP hardware layer (`src/unnamed/part_000`, `s2lp_hw.c`)

`S2LP_HW_spi_write_read_8` drives the chip-select GPIO around one SPI
transfer.  The embedding records the hardware actions as an event trace.
The child SPI status is a `Nat` (0 = `SPI_SUCCESS`); the `SPI_exit_error`
macro body is not under the available sources. -/

/-- Hardware events performed by the S2LP hardware layer. -/
inductive HwEv where
  | csLow
  | csHigh
  | spiTransfer (size : Nat)
  deriving DecidableEq, Repr

/-- Modelled from the spec: the `SPI_exit_error(base)` macro (its definition
file is not among the available sources) combines a non-success child SPI
status with the caller's error base by addition and branches to the `errors`
label, exactly as the sibling macros `NVM_status_check` (`nvm.h:42`) and
`AES_status_check` (`aes.h`) that are in the sources do:
`status = error_base + child_status; goto errors;`. -/
def SPI_exit_error (base : Nat) (spi_status : Nat) : Option Nat :=
  if spi_status = 0 then none else some (base + spi_status)

/-- `S2LP_HW_spi_write_read_8`: CS low, one SPI transfer of `transfer_size`
bytes, then (through the shared `errors` label on both the success and the
failure path) CS high and return.  `spi_status` is the status the child
`SPI_write_read_8` call returns; `base` is `S2LP_ERROR_BASE_SPI` (a constant
of `s2lp.h`, numeric value irrelevant here).  Result: the event trace and
the returned status (0 = `S2LP_SUCCESS`). -/
def S2LP_HW_spi_write_read_8 (base : Nat) (spi_status : Nat) (transfer_size : Nat) :
    List HwEv × Nat :=
  match SPI_exit_error base spi_status with
  | none => ([HwEv.csLow, HwEv.spiTransfer transfer_size, HwEv.csHigh], 0)
  | some s => ([HwEv.csLow, HwEv.spiTransfer transfer_size, HwEv.csHigh], s)

/-! ### DMA1 channel 3 engine (`src/src/peripherals/dma.c`)

State visible to the channel-3 functions: the channel enable bit `EN`
(`CCR3` bit 0), the transfer-complete interrupt enable `TCIE` (`CCR3`
bit 1), the hardware transfer-complete flag `TCIF3` (`ISR` bit 9, cleared
by writing `IFCR`), the software completion flag `dma1_channel3_tcif`, the
NVIC enable for the channel-2/3 vector, and the memory address/length
registers `CMAR3`/`CNDTR3`. -/

structure Dma3State where
  en : Bool
  tcie : Bool
  isr_tcif3 : Bool
  tcif : Bool
  nvic : Bool
  cmar : Nat
  cndtr : Nat
  deriving DecidableEq, Repr

/-- `DMA1_start_channel3`: clear the software flag, clear the channel-3
interrupt flags (`IFCR |= 0x00000F00`), enable the NVIC vector, set `EN`. -/
def DMA1_start_channel3 (s : Dma3State) : Dma3State :=
  { s with tcif := false, isr_tcif3 := false, nvic := true, en := true }

/-- `DMA1_stop_channel3`: clear the software flag, clear `EN`, disable the
NVIC vector. -/
def DMA1_stop_channel3 (s : Dma3State) : Dma3State :=
  { s with tcif := false, en := false, nvic := false }

/-- `DMA1_set_channel3_source_addr`: write `CMAR3` and `CNDTR3`, clear the
channel-3 interrupt flags. -/
def DMA1_set_channel3_source_addr (s : Dma3State) (addr size : Nat) : Dma3State :=
  { s with cmar := addr, cndtr := size, isr_tcif3 := false }

/-- `DMA1_get_channel3_status`: return the software completion flag. -/
def DMA1_get_channel3_status (s : Dma3State) : Bool :=
  s.tcif

/-- `DMA1_Channel2_3_IRQHandler`: if `TCIF3` is raised, set the software
flag when `TCIE` is enabled, then clear `TCIF3` via `IFCR`. -/
def DMA1_Channel2_3_IRQHandler (s : Dma3State) : Dma3State :=
  if s.isr_tcif3 then
    { s with tcif := (if s.tcie then true else s.tcif), isr_tcif3 := false }
  else s

/-- Events acting on the channel-3 state: the main-flow calls, the hardware
raising `TCIF3` on completion, and the interrupt handler running. -/
inductive Dma3Ev where
  | start
  | stop
  | setAddr (addr size : Nat)
  | hwComplete
  | irq
  deriving DecidableEq, Repr

/-- One step of the channel-3 state under an event.  `hwComplete` is the
hardware raising `TCIF3` at the end of a transfer. -/
def dma3Step (s : Dma3State) : Dma3Ev → Dma3State
  | Dma3Ev.start => DMA1_start_channel3 s
  | Dma3Ev.stop => DMA1_stop_channel3 s
  | Dma3Ev.setAddr a n => DMA1_set_channel3_source_addr s a n
  | Dma3Ev.hwComplete => { s with isr_tcif3 := true }
  | Dma3Ev.irq => DMA1_Channel2_3_IRQHandler s

/-- Run a sequence of channel-3 events. -/
def dma3Run (s : Dma3State) : List Dma3Ev → Dma3State
  | [] => s
  | e :: es => dma3Run (dma3Step s e) es

/-! ### MCU_API_get_nv_mem / MCU_API_set_nv_mem (`src/src/sigfox/mcu_api.c:247-329`)

NVM addresses from `src/inc/peripherals/nvm.h:25-33` and the Sigfox record
offsets from the layout diagram in `mcu_api.c` (`|0 1|2 3|4 5|6|` =
`PN | SEQ | FH | RL`). -/

def NVM_ADDRESS_SIGFOX_DEVICE_ID : Nat := 0
def NVM_ADDRESS_SIGFOX_DEVICE_KEY : Nat := 4
def NVM_ADDRESS_SIGFOX_PN : Nat := 20
def NVM_ADDRESS_SIGFOX_MESSAGE_COUNTER : Nat := 22
def NVM_ADDRESS_SIGFOX_FH : Nat := 24
def NVM_ADDRESS_SIGFOX_RL : Nat := 26

def SFX_NVMEM_PN : Nat := 0
def SFX_NVMEM_MSG_COUNTER : Nat := 2
def SFX_NVMEM_FH : Nat := 4
def SFX_NVMEM_RL : Nat := 6

/-- The non-volatile store as seen through `NVM_read_byte`: a partial map
from address to byte, `none` standing for a read that fails. -/
def NvmStore := Nat → Option Nat

/-- Chain a sequence of `NVM_read_byte` calls: each element is
`(nvm_address, record_index)`; the result is the list of record-buffer
writes `(record_index, byte)` performed, or `none` when a read fails
(`goto errors`). -/
def nvmReadSeq (nvm : NvmStore) : List (Nat × Nat) → Option (List (Nat × Nat))
  | [] => some []
  | (addr, idx) :: rest =>
    match nvm addr with
    | none => none
    | some b =>
      match nvmReadSeq nvm rest with
      | none => none
      | some ws => some ((idx, b) :: ws)

/-- The exact `(NVM address, record index)` pairs read by
`MCU_API_get_nv_mem`, in program order: PN (2 bytes), message counter
(2 bytes), FH (2 bytes), RL (1 byte). -/
def mcuGetNvMemSeq : List (Nat × Nat) :=
  [(NVM_ADDRESS_SIGFOX_PN, SFX_NVMEM_PN),
   (NVM_ADDRESS_SIGFOX_PN + 1, SFX_NVMEM_PN + 1),
   (NVM_ADDRESS_SIGFOX_MESSAGE_COUNTER, SFX_NVMEM_MSG_COUNTER),
   (NVM_ADDRESS_SIGFOX_MESSAGE_COUNTER + 1, SFX_NVMEM_MSG_COUNTER + 1),
   (NVM_ADDRESS_SIGFOX_FH, SFX_NVMEM_FH),
   (NVM_ADDRESS_SIGFOX_FH + 1, SFX_NVMEM_FH + 1),
   (NVM_ADDRESS_SIGFOX_RL, SFX_NVMEM_RL)]

/-- `MCU_API_get_nv_mem`: the record-buffer writes it performs, or the
error status when one of the reads fails. -/
def MCU_API_get_nv_mem (nvm : NvmStore) : Except McuStatus (List (Nat × Nat)) :=
  match nvmReadSeq nvm mcuGetNvMemSeq with
  | none => Except.error McuStatus.MCU_ERR_API_GETNVMEM
  | some ws => Except.ok ws

/-- Chain a sequence of `NVM_write_byte` calls: each element is
`(nvm_address, byte)`; `wOk addr` tells whether the write at `addr`
succeeds; the result is the list of NVM writes performed, or `none` when
one fails (`goto errors`). -/
def nvmWriteSeq (wOk : Nat → Bool) : List (Nat × Nat) → Option (List (Nat × Nat))
  | [] => some []
  | (addr, b) :: rest =>
    if wOk addr then
      match nvmWriteSeq wOk rest with
      | none => none
      | some ws => some ((addr, b) :: ws)
    else none

/-- `MCU_API_set_nv_mem`: writes the record bytes to the NVM addresses in
program order — PN (2 bytes), message counter (2 bytes), FH (2 bytes),
RL (1 byte); `buf` is the `data_to_write` record. -/
def MCU_API_set_nv_mem (wOk : Nat → Bool) (buf : Nat → Nat) :
    Except McuStatus (List (Nat × Nat)) :=
  match nvmWriteSeq wOk
      [(NVM_ADDRESS_SIGFOX_PN, buf SFX_NVMEM_PN),
       (NVM_ADDRESS_SIGFOX_PN + 1, buf (SFX_NVMEM_PN + 1)),
       (NVM_ADDRESS_SIGFOX_MESSAGE_COUNTER, buf SFX_NVMEM_MSG_COUNTER),
       (NVM_ADDRESS_SIGFOX_MESSAGE_COUNTER + 1, buf (SFX_NVMEM_MSG_COUNTER + 1)),
       (NVM_ADDRESS_SIGFOX_FH, buf SFX_NVMEM_FH),
       (NVM_ADDRESS_SIGFOX_FH + 1, buf (SFX_NVMEM_FH + 1)),
       (NVM_ADDRESS_SIGFOX_RL, buf SFX_NVMEM_RL)] with
  | none => Except.error McuStatus.MCU_ERR_API_SETNVMEM
  | some ws => Except.ok ws

/-! ### MCU API context (`mcu_api.c:30-37`)

The only mutable global of the MCU API besides the malloc buffer: the
duration saved by `MCU_API_timer_start` for `MCU_API_timer_wait_for_end`.
Threading it through the embeddings lets us state which functions leave it
untouched. -/

structure McuCtx where
  timer_duration_seconds : Nat
  deriving DecidableEq, Repr

/-! ### MCU_API_aes_128_cbc_encrypt (`mcu_api.c:185-230`)

`AES_BLOCK_SIZE = 16` (`aes.h`).  The AES core `AES_encrypt` lives in the
hardware AES driver (not under the available sources) and is taken as an
abstract parameter `enc data_in init_vector key = some data_out`, `none`
standing for its timeout failure.  A 16-byte array is a function
`Fin 16 → Nat`. -/

def AES_BLOCK_SIZE : Nat := 16

abbrev Block := Fin 16 → Nat

/-- The local arrays `init_vector`/`data_out` start zero-initialised. -/
def zeroBlock : Block := fun _ => 0

/-- `data_in[byte_idx] = data_to_encrypt[(block_idx * AES_BLOCK_SIZE) + byte_idx]`. -/
def blockAt (pt : Nat → Nat) (block_idx : Nat) : Block :=
  fun j => pt (block_idx * AES_BLOCK_SIZE + j.val)

/-- The `sfx_credentials_use_key_t` argument: the two named enum values, or
any other numeric value (which the C `switch` sends to `default`). -/
inductive SfxCredentialsUseKey where
  | CREDENTIALS_PRIVATE_KEY
  | CREDENTIALS_KEY_IN_ARGUMENT
  | otherValue (v : Nat)
  deriving DecidableEq, Repr

/-- The `CREDENTIALS_PRIVATE_KEY` arm: read the 16 device-key bytes from
`NVM_ADDRESS_SIGFOX_DEVICE_KEY + byte_idx`; any failing read aborts with
the error status. -/
def readDeviceKey (nvm : NvmStore) : Option Block :=
  if h : ∀ j : Fin 16, (nvm (NVM_ADDRESS_SIGFOX_DEVICE_KEY + j.val)).isSome then
    some (fun j => (nvm (NVM_ADDRESS_SIGFOX_DEVICE_KEY + j.val)).get (h j))
  else none

/-- The `switch (use_key)` of `MCU_API_aes_128_cbc_encrypt` filling
`local_key`; `none` = `goto errors`. -/
def selectKey (nvm : NvmStore) (key : Block) :
    SfxCredentialsUseKey → Option Block
  | SfxCredentialsUseKey.CREDENTIALS_PRIVATE_KEY => readDeviceKey nvm
  | SfxCredentialsUseKey.CREDENTIALS_KEY_IN_ARGUMENT => some (fun j => key j)
  | SfxCredentialsUseKey.otherValue _ => none

/-- The encryption loop of `MCU_API_aes_128_cbc_encrypt`: `prev` is the
current content of `data_out` (the initialization vector for the next
block), `block_idx` the current block index, the last argument the number
of blocks still to process.  Returns the ciphertext blocks in order, or
`none` when the AES core fails. -/
def cbcChain (enc : Block → Block → Block → Option Block)
    (lk : Block) (pt : Nat → Nat) : Block → Nat → Nat → Option (List Block)
  | _, _, 0 => some []
  | prev, block_idx, n + 1 =>
    match enc (blockAt pt block_idx) prev lk with
    | none => none
    | some c =>
      match cbcChain enc lk pt c (block_idx + 1) n with
      | none => none
      | some cs => some (c :: cs)

/-- `MCU_API_aes_128_cbc_encrypt`: select the key per `use_key`, then run
the CBC loop over the `aes_block_len / AES_BLOCK_SIZE` complete input
blocks, starting from a zero `data_out`.  The MCU API context is threaded
through untouched (the function reads no MCU API global). -/
def MCU_API_aes_128_cbc_encrypt (enc : Block → Block → Block → Option Block)
    (nvm : NvmStore) (ctx : McuCtx) (data_to_encrypt : Nat → Nat)
    (aes_block_len : Nat) (key : Block) (use_key : SfxCredentialsUseKey) :
    Except McuStatus (List Block) × McuCtx :=
  match selectKey nvm key use_key with
  | none => (Except.error McuStatus.MCU_ERR_API_AES, ctx)
  | some lk =>
    match cbcChain enc lk data_to_encrypt zeroBlock 0 (aes_block_len / AES_BLOCK_SIZE) with
    | none => (Except.error McuStatus.MCU_ERR_API_AES, ctx)
    | some cs => (Except.ok cs, ctx)

/-- Content of the `encrypted_data` buffer after the call: the loop stores
`data_out[byte_idx]` at `(block_idx * AES_BLOCK_SIZE) + byte_idx`, so the
byte at address `a` comes from ciphertext block `a / 16`, position
`a % 16`, when that block was produced; other bytes keep their prior
content `out0 a`. -/
def encryptedDataAfter (out0 : Nat → Nat) (cs : List Block) : Nat → Nat :=
  fun a =>
    match cs[a / 16]? with
    | some c => c ⟨a % 16, Nat.mod_lt a (by norm_num)⟩
    | none => out0 a

/-! ### Timing orchestrator (`mcu_api.c:356-360, 409-437`)

`MCU_API_timer_wait_for_end` calls, in order: `IWDG_reload`, then per
sub-interval `RTC_stop_wakeup_timer`, `RTC_start_wakeup_timer(sub_delay)`,
`PWR_enter_stop_mode`, `IWDG_reload`, `RTC_clear_wakeup_timer_flag`,
`EXTI_clear_all_flags`; on an RTC failure it jumps to `errors`, which
issues one more `RTC_stop_wakeup_timer` and returns the timer error.

The embedding produces the event trace.  `rtcOk k` is the success of the
`k`-th RTC stop/start call (counted in program order).
`IWDG_REFRESH_PERIOD_SECONDS` (macro of `iwdg.h`, not under the available
sources) is the parameter `P`.  The `while (remaining_delay > 0)` loop is
written with fuel: when `0 < P` every iteration consumes at least one
second of `remaining_delay`, so fuel `= remaining_delay` is exact; `none`
marks the would-be non-termination when `P = 0`. -/

inductive TimEv where
  | iwdgReload
  | rtcStop
  | rtcStart (d : Nat)
  | enterStop
  | clearWakeFlag
  | clearExtiFlags
  deriving DecidableEq, Repr

/-- The orchestrator loop.  Arguments: fuel, `remaining_delay`, RTC call
counter.  Returns the loop's event trace and whether it completed without
an RTC failure (the error-path `RTC_stop_wakeup_timer` of the `errors`
label is included in the failure traces). -/
def timerWaitLoop (P : Nat) (rtcOk : Nat → Bool) :
    Nat → Nat → Nat → Option (List TimEv × Bool)
  | 0, r, _ => if r = 0 then some ([], true) else none
  | fuel + 1, r, k =>
    if r = 0 then some ([], true)
    else
      let sub := if r > P then P else r
      if rtcOk k then
        if rtcOk (k + 1) then
          match timerWaitLoop P rtcOk fuel (r - sub) (k + 2) with
          | none => none
          | some (evs, ok) =>
            some (TimEv.rtcStop :: TimEv.rtcStart sub :: TimEv.enterStop ::
                  TimEv.iwdgReload :: TimEv.clearWakeFlag :: TimEv.clearExtiFlags :: evs, ok)
        else
          -- RTC_start_wakeup_timer failed: goto errors (one more stop, result ignored).
          some ([TimEv.rtcStop, TimEv.rtcStart sub, TimEv.rtcStop], false)
      else
        -- RTC_stop_wakeup_timer failed: goto errors.
        some ([TimEv.rtcStop, TimEv.rtcStop], false)

/-- `MCU_API_timer_start`: save the requested duration in the context. -/
def MCU_API_timer_start (ctx : McuCtx) (time_duration_in_s : Nat) : McuStatus × McuCtx :=
  (McuStatus.SFX_ERR_NONE, { ctx with timer_duration_seconds := time_duration_in_s })

/-- `MCU_API_timer_wait_for_end`: initial watchdog reload, then the
sub-interval loop over the stored duration.  Result: the event trace and
the returned status; `none` only in the `P = 0` non-termination artefact. -/
def MCU_API_timer_wait_for_end (P : Nat) (rtcOk : Nat → Bool) (ctx : McuCtx) :
    Option ((List TimEv × McuStatus) × McuCtx) :=
  match timerWaitLoop P rtcOk ctx.timer_duration_seconds ctx.timer_duration_seconds 0 with
  | none => none
  | some (evs, ok) =>
    some ((TimEv.iwdgReload :: evs,
           if ok then McuStatus.SFX_ERR_NONE else McuStatus.MCU_ERR_API_TIMER_END), ctx)

/-- Is an event an RTC wake-up-timer operation (arm or disarm)? -/
def isRtcOp : TimEv → Bool
  | TimEv.rtcStop => true
  | TimEv.rtcStart _ => true
  | _ => false

/-- Folder remembering the most recent RTC stop/start operation seen. -/
def rtcTrack (acc : Option TimEv) (e : TimEv) : Option TimEv :=
  if isRtcOp e then some e else acc

/-- The last RTC stop/start operation of a trace, if any. -/
def lastRtcOp (evs : List TimEv) : Option TimEv :=
  evs.foldl rtcTrack none

/-- "The wake-up timer is disarmed before the call returns": the last RTC
operation issued is not an arm (`RTC_start_wakeup_timer`). -/
def timerDisarmedOnExit (evs : List TimEv) : Bool :=
  match lastRtcOp evs with
  | some (TimEv.rtcStart _) => false
  | _ => true

/-- The armed durations issued on a trace, in order. -/
def startDurations (evs : List TimEv) : List Nat :=
  evs.filterMap fun e =>
    match e with
    | TimEv.rtcStart d => some d
    | _ => none

/-- The number of `IWDG_reload` calls on a trace. -/
def reloadCount (evs : List TimEv) : Nat :=
  (evs.filter fun e => e = TimEv.iwdgReload).length

/-- The sub-interval decomposition of a duration: repeatedly
`min(remaining, P)`, as computed at `mcu_api.c:419-420` (fuel as in
`timerWaitLoop`). -/
def subDelays (P : Nat) : Nat → Nat → List Nat
  | 0, _ => []
  | fuel + 1, r =>
    if r = 0 then []
    else
      let sub := if r > P then P else r
      sub :: subDelays P fuel (r - sub)

/-! ## Theorems -/

/-- C9: `MCU_API_malloc` succeeds exactly when the requested size is at
most `MCU_API_MALLOC_BUFFER_SIZE` (200 bytes); every successful call
returns the address of the same fixed static buffer, so two successful
allocations alias the same memory; `MCU_API_free` performs no action and
always returns success. -/
theorem mcu_api_malloc_fixed_buffer :
    (∀ buf_addr size, (MCU_API_malloc buf_addr size).1 = McuStatus.SFX_ERR_NONE ↔
        size ≤ MCU_API_MALLOC_BUFFER_SIZE)
    ∧ (∀ buf_addr size, size ≤ MCU_API_MALLOC_BUFFER_SIZE →
        MCU_API_malloc buf_addr size = (McuStatus.SFX_ERR_NONE, some buf_addr))
    ∧ (∀ buf_addr size1 size2 p1 p2, (MCU_API_malloc buf_addr size1).2 = some p1 →
        (MCU_API_malloc buf_addr size2).2 = some p2 → p1 = p2)
    ∧ (∀ ptr, MCU_API_free ptr = McuStatus.SFX_ERR_NONE) := by
  refine ⟨fun buf_addr size => ?_, fun buf_addr size h => ?_, ?_, fun ptr => rfl⟩
  · unfold MCU_API_malloc
    by_cases h : size > MCU_API_MALLOC_BUFFER_SIZE <;> simp [h] <;> omega
  · unfold MCU_API_malloc
    simp [Nat.not_lt.mpr h]
  · intro buf_addr size1 size2 p1 p2 h1 h2
    unfold MCU_API_malloc at h1 h2
    by_cases c1 : size1 > MCU_API_MALLOC_BUFFER_SIZE <;>
      by_cases c2 : size2 > MCU_API_MALLOC_BUFFER_SIZE <;>
      simp [c1, c2] at h1 h2 <;> omega

/-- Witness for C9: allocating 200 bytes and 7 bytes returns the same
buffer address. -/
theorem mcu_api_malloc_fixed_buffer_witness : (5 : Nat) = 5 :=
  mcu_api_malloc_fixed_buffer.2.2.1 5 200 7 5 5 (by decide) (by decide)

/-- C6: `S2LP_HW_spi_write_read_8` asserts chip select low before the SPI
transfer and deasserts it high before returning, on every exit path
including when the SPI transfer fails; an SPI failure is propagated with
the S2LP SPI error-base offset added to the child status, and the transfer
is never retried inside the function. -/
theorem s2lp_hw_spi_cs_bracket :
    ∀ base spi_status size,
      (S2LP_HW_spi_write_read_8 base spi_status size).1
        = [HwEv.csLow, HwEv.spiTransfer size, HwEv.csHigh]
      ∧ ((S2LP_HW_spi_write_read_8 base spi_status size).1.count (HwEv.spiTransfer size) = 1)
      ∧ (spi_status = 0 → (S2LP_HW_spi_write_read_8 base spi_status size).2 = 0)
      ∧ (spi_status ≠ 0 →
          (S2LP_HW_spi_write_read_8 base spi_status size).2 = base + spi_status) := by
  intro base spi_status size
  unfold S2LP_HW_spi_write_read_8 SPI_exit_error
  by_cases h : spi_status = 0 <;> simp [h, List.count_cons]

/-- Witness for C6: a failing SPI transfer (child status 3) under error
base 256 still produces the CS-bracketed trace and returns 259. -/
theorem s2lp_hw_spi_cs_bracket_witness :
    (S2LP_HW_spi_write_read_8 256 3 2).1
        = [HwEv.csLow, HwEv.spiTransfer 2, HwEv.csHigh]
      ∧ (S2LP_HW_spi_write_read_8 256 3 2).2 = 256 + 3 :=
  ⟨(s2lp_hw_spi_cs_bracket 256 3 2).1, (s2lp_hw_spi_cs_bracket 256 3 2).2.2.2 (by decide)⟩

/-- A concrete armed channel-3 state: enabled, not stopped since its last
start, with a stale completion flag. -/
def dma3Armed : Dma3State :=
  { en := true, tcie := true, isr_tcif3 := false, tcif := true,
    nvic := true, cmar := 5, cndtr := 8 }

/-- Counterexample to C7: on the armed state `dma3Armed` (started and not
stopped since), `DMA1_set_channel3_source_addr` takes full effect (the
address register changes to the new value) and `DMA1_start_channel3`
likewise proceeds unconditionally — the engine does not prevent either. -/
theorem dma3_armed_guard_counterexample :
    dma3Armed.en = true
    ∧ DMA1_set_channel3_source_addr dma3Armed 7 9 ≠ dma3Armed
    ∧ (DMA1_set_channel3_source_addr dma3Armed 7 9).cmar = 7
    ∧ (DMA1_set_channel3_source_addr dma3Armed 7 9).en = true
    ∧ DMA1_start_channel3 dma3Armed ≠ dma3Armed
    ∧ (DMA1_start_channel3 dma3Armed).en = true := by
  refine ⟨rfl, ?_, rfl, rfl, ?_, rfl⟩ <;> decide

/-- C7 (amended): the engine does not guard against an armed channel —
`DMA1_start_channel3` and `DMA1_set_channel3_source_addr` perform the same
register and flag actions whatever the armed status, and reconfiguration
does not itself stop the channel; requiring `stop()` before
`configure()`/`start()` is a caller obligation. -/
theorem dma3_start_reconfig_unconditional :
    ∀ (s : Dma3State) (b : Bool) (addr size : Nat),
      ((DMA1_start_channel3 s).en = true
        ∧ (DMA1_start_channel3 s).tcif = false
        ∧ (DMA1_start_channel3 s).isr_tcif3 = false
        ∧ DMA1_start_channel3 { s with en := b } = DMA1_start_channel3 s)
      ∧ ((DMA1_set_channel3_source_addr s addr size).cmar = addr
        ∧ (DMA1_set_channel3_source_addr s addr size).cndtr = size
        ∧ (DMA1_set_channel3_source_addr s addr size).en = s.en
        ∧ (DMA1_set_channel3_source_addr s addr size).tcif = s.tcif
        ∧ DMA1_set_channel3_source_addr { s with en := b } addr size
            = { DMA1_set_channel3_source_addr s addr size with en := b }) := by
  intro s b addr size
  refine ⟨⟨rfl, rfl, rfl, rfl⟩, ⟨rfl, rfl, rfl, rfl, rfl⟩⟩

/-- If the software completion flag is clear and no interrupt-handler event
occurs, no channel-3 operation raises it. -/
theorem dma3Run_no_irq_keeps_clear (evs : List Dma3Ev) :
    ∀ (s : Dma3State), s.tcif = false → (∀ e ∈ evs, e ≠ Dma3Ev.irq) →
      (dma3Run s evs).tcif = false := by
  induction evs with
  | nil => intro s hs _; exact hs
  | cons e es ih =>
    intro s hs hno
    have he : e ≠ Dma3Ev.irq := hno e (List.mem_cons_self e es)
    have hstep : (dma3Step s e).tcif = false := by
      cases e with
      | start => rfl
      | stop => rfl
      | setAddr a n => exact hs
      | hwComplete => exact hs
      | irq => exact absurd rfl he
    exact ih (dma3Step s e) hstep (fun x hx => hno x (List.mem_cons_of_mem e hx))

/-- C10: the channel-3 completion flag has one producer and one consumer —
a step sets it only when the step is the interrupt handler with `TCIF3`
raised and `TCIE` enabled; a step clears it only when the step is
`DMA1_start_channel3` or `DMA1_stop_channel3`; immediately after every
start or stop `DMA1_get_channel3_status` returns 0, and it stays 0 for any
subsequent sequence of operations that does not include the completion
interrupt firing. -/
theorem dma3_flag_single_producer_consumer :
    (∀ (s : Dma3State) (e : Dma3Ev), (dma3Step s e).tcif = true →
        s.tcif = true ∨ (e = Dma3Ev.irq ∧ s.isr_tcif3 = true ∧ s.tcie = true))
    ∧ (∀ (s : Dma3State) (e : Dma3Ev), (dma3Step s e).tcif = false →
        s.tcif = false ∨ e = Dma3Ev.start ∨ e = Dma3Ev.stop)
    ∧ (∀ s : Dma3State, DMA1_get_channel3_status (DMA1_start_channel3 s) = false)
    ∧ (∀ s : Dma3State, DMA1_get_channel3_status (DMA1_stop_channel3 s) = false)
    ∧ (∀ (s : Dma3State) (evs : List Dma3Ev), (∀ e ∈ evs, e ≠ Dma3Ev.irq) →
        DMA1_get_channel3_status (dma3Run (DMA1_start_channel3 s) evs) = false
        ∧ DMA1_get_channel3_status (dma3Run (DMA1_stop_channel3 s) evs) = false) := by
  refine ⟨?_, ?_, fun s => rfl, fun s => rfl, ?_⟩
  · intro s e h
    cases e with
    | start => exact absurd h (by simp [dma3Step, DMA1_start_channel3])
    | stop => exact absurd h (by simp [dma3Step, DMA1_stop_channel3])
    | setAddr a n => exact Or.inl h
    | hwComplete => exact Or.inl h
    | irq =>
      simp only [dma3Step, DMA1_Channel2_3_IRQHandler] at h
      by_cases hisr : s.isr_tcif3 <;> simp [hisr] at h
      · by_cases htcie : s.tcie <;> simp [htcie] at h
        · exact Or.inr ⟨rfl, hisr, htcie⟩
        · exact Or.inl h
      · exact Or.inl h
  · intro s e h
    cases e with
    | start => exact Or.inr (Or.inl rfl)
    | stop => exact Or.inr (Or.inr rfl)
    | setAddr a n => exact Or.inl h
    | hwComplete => exact Or.inl h
    | irq =>
      simp only [dma3Step, DMA1_Channel2_3_IRQHandler] at h
      by_cases hisr : s.isr_tcif3 <;> simp [hisr] at h
      · by_cases htcie : s.tcie <;> simp [htcie] at h
        exact Or.inl h
      · exact Or.inl h
  · intro s evs hno
    exact ⟨dma3Run_no_irq_keeps_clear evs _ rfl hno,
           dma3Run_no_irq_keeps_clear evs _ rfl hno⟩

/-- Witness for C10: after a start, a stop/reconfigure/hardware-completion
sequence without the interrupt handler leaves the status flag at 0. -/
theorem dma3_flag_single_producer_consumer_witness :
    DMA1_get_channel3_status
      (dma3Run (DMA1_start_channel3 dma3Armed)
        [Dma3Ev.hwComplete, Dma3Ev.setAddr 7 9, Dma3Ev.stop]) = false :=
  (dma3_flag_single_producer_consumer.2.2.2.2 dma3Armed
    [Dma3Ev.hwComplete, Dma3Ev.setAddr 7 9, Dma3Ev.stop] (by decide)).1

/-- Counterexample to C4: on the store mapping every address to its own
value, `MCU_API_get_nv_mem` performs exactly seven transfers — PN and the
message counter and FH as two bytes each, but RL as a single byte from
`NVM_ADDRESS_SIGFOX_RL` (address 26) into record index 6; the second RL
byte the claim asserts (address `NVM_ADDRESS_SIGFOX_RL + 1` = 27, record
index 7) is never accessed. -/
theorem mcu_nv_mem_rl_counterexample :
    MCU_API_get_nv_mem (fun a => some a)
      = Except.ok [(0, 20), (1, 21), (2, 22), (3, 23), (4, 24), (5, 25), (6, 26)]
    ∧ (mcuGetNvMemSeq.all fun p => p.1 ≠ NVM_ADDRESS_SIGFOX_RL + 1) = true
    ∧ (mcuGetNvMemSeq.all fun p => p.2 ≠ SFX_NVMEM_RL + 1) = true
    ∧ mcuGetNvMemSeq.length = 7 := by
  exact ⟨rfl, by decide, by decide, by decide⟩

/-- C4 (amended): `MCU_API_get_nv_mem` and `MCU_API_set_nv_mem` transfer
the persistent sequence-state record with the fixed layout — PN (2 bytes)
at `NVM_ADDRESS_SIGFOX_PN`, message sequence counter (2 bytes) at
`NVM_ADDRESS_SIGFOX_MESSAGE_COUNTER`, FH (2 bytes) at
`NVM_ADDRESS_SIGFOX_FH`, and RL (1 byte) at `NVM_ADDRESS_SIGFOX_RL` — each
field copied in full between the non-volatile store and the record
buffer. -/
theorem mcu_nv_mem_layout (nvm : NvmStore) (v : Nat → Nat) (buf : Nat → Nat)
    (wOk : Nat → Bool)
    (hr : ∀ a, NVM_ADDRESS_SIGFOX_PN ≤ a → a ≤ NVM_ADDRESS_SIGFOX_RL → nvm a = some (v a))
    (hw : ∀ a, NVM_ADDRESS_SIGFOX_PN ≤ a → a ≤ NVM_ADDRESS_SIGFOX_RL → wOk a = true) :
    MCU_API_get_nv_mem nvm
      = Except.ok [(SFX_NVMEM_PN, v NVM_ADDRESS_SIGFOX_PN),
                   (SFX_NVMEM_PN + 1, v (NVM_ADDRESS_SIGFOX_PN + 1)),
                   (SFX_NVMEM_MSG_COUNTER, v NVM_ADDRESS_SIGFOX_MESSAGE_COUNTER),
                   (SFX_NVMEM_MSG_COUNTER + 1, v (NVM_ADDRESS_SIGFOX_MESSAGE_COUNTER + 1)),
                   (SFX_NVMEM_FH, v NVM_ADDRESS_SIGFOX_FH),
                   (SFX_NVMEM_FH + 1, v (NVM_ADDRESS_SIGFOX_FH + 1)),
                   (SFX_NVMEM_RL, v NVM_ADDRESS_SIGFOX_RL)]
    ∧ MCU_API_set_nv_mem wOk buf
      = Except.ok [(NVM_ADDRESS_SIGFOX_PN, buf SFX_NVMEM_PN),
                   (NVM_ADDRESS_SIGFOX_PN + 1, buf (SFX_NVMEM_PN + 1)),
                   (NVM_ADDRESS_SIGFOX_MESSAGE_COUNTER, buf SFX_NVMEM_MSG_COUNTER),
                   (NVM_ADDRESS_SIGFOX_MESSAGE_COUNTER + 1, buf (SFX_NVMEM_MSG_COUNTER + 1)),
                   (NVM_ADDRESS_SIGFOX_FH, buf SFX_NVMEM_FH),
                   (NVM_ADDRESS_SIGFOX_FH + 1, buf (SFX_NVMEM_FH + 1)),
                   (NVM_ADDRESS_SIGFOX_RL, buf SFX_NVMEM_RL)] := by
  have h20 := hr 20 (by norm_num [NVM_ADDRESS_SIGFOX_PN]) (by norm_num [NVM_ADDRESS_SIGFOX_RL])
  have h21 := hr 21 (by norm_num [NVM_ADDRESS_SIGFOX_PN]) (by norm_num [NVM_ADDRESS_SIGFOX_RL])
  have h22 := hr 22 (by norm_num [NVM_ADDRESS_SIGFOX_PN]) (by norm_num [NVM_ADDRESS_SIGFOX_RL])
  have h23 := hr 23 (by norm_num [NVM_ADDRESS_SIGFOX_PN]) (by norm_num [NVM_ADDRESS_SIGFOX_RL])
  have h24 := hr 24 (by norm_num [NVM_ADDRESS_SIGFOX_PN]) (by norm_num [NVM_ADDRESS_SIGFOX_RL])
  have h25 := hr 25 (by norm_num [NVM_ADDRESS_SIGFOX_PN]) (by norm_num [NVM_ADDRESS_SIGFOX_RL])
  have h26 := hr 26 (by norm_num [NVM_ADDRESS_SIGFOX_PN]) (by norm_num [NVM_ADDRESS_SIGFOX_RL])
  have w20 := hw 20 (by norm_num [NVM_ADDRESS_SIGFOX_PN]) (by norm_num [NVM_ADDRESS_SIGFOX_RL])
  have w21 := hw 21 (by norm_num [NVM_ADDRESS_SIGFOX_PN]) (by norm_num [NVM_ADDRESS_SIGFOX_RL])
  have w22 := hw 22 (by norm_num [NVM_ADDRESS_SIGFOX_PN]) (by norm_num [NVM_ADDRESS_SIGFOX_RL])
  have w23 := hw 23 (by norm_num [NVM_ADDRESS_SIGFOX_PN]) (by norm_num [NVM_ADDRESS_SIGFOX_RL])
  have w24 := hw 24 (by norm_num [NVM_ADDRESS_SIGFOX_PN]) (by norm_num [NVM_ADDRESS_SIGFOX_RL])
  have w25 := hw 25 (by norm_num [NVM_ADDRESS_SIGFOX_PN]) (by norm_num [NVM_ADDRESS_SIGFOX_RL])
  have w26 := hw 26 (by norm_num [NVM_ADDRESS_SIGFOX_PN]) (by norm_num [NVM_ADDRESS_SIGFOX_RL])
  constructor
  · simp only [MCU_API_get_nv_mem, nvmReadSeq, mcuGetNvMemSeq,
      NVM_ADDRESS_SIGFOX_PN, NVM_ADDRESS_SIGFOX_MESSAGE_COUNTER,
      NVM_ADDRESS_SIGFOX_FH, NVM_ADDRESS_SIGFOX_RL,
      SFX_NVMEM_PN, SFX_NVMEM_MSG_COUNTER, SFX_NVMEM_FH, SFX_NVMEM_RL] at *
    rw [h20, h21, h22, h23, h24, h25, h26]
  · simp only [MCU_API_set_nv_mem, nvmWriteSeq,
      NVM_ADDRESS_SIGFOX_PN, NVM_ADDRESS_SIGFOX_MESSAGE_COUNTER,
      NVM_ADDRESS_SIGFOX_FH, NVM_ADDRESS_SIGFOX_RL,
      SFX_NVMEM_PN, SFX_NVMEM_MSG_COUNTER, SFX_NVMEM_FH, SFX_NVMEM_RL] at *
    rw [w20, w21, w22, w23, w24, w25, w26]
    simp

/-- Witness for C4 (amended): the layout theorem applied to the store
mapping address `a` to byte `a + 100`, an all-successful write oracle and
the identity record buffer. -/
theorem mcu_nv_mem_layout_witness :
    MCU_API_get_nv_mem (fun a => some (a + 100))
      = Except.ok [(0, 120), (1, 121), (2, 122), (3, 123), (4, 124), (5, 125), (6, 126)]
    ∧ MCU_API_set_nv_mem (fun _ => true) (fun i => i)
      = Except.ok [(20, 0), (21, 1), (22, 2), (23, 3), (24, 4), (25, 5), (26, 6)] :=
  mcu_nv_mem_layout (fun a => some (a + 100)) (fun a => a + 100) (fun i => i)
    (fun _ => true) (fun a _ _ => rfl) (fun a _ _ => rfl)

/-- Equality of `Except` results is decidable when both components are. -/
instance {ε α : Type} [DecidableEq ε] [DecidableEq α] : DecidableEq (Except ε α) :=
  fun a b =>
    match a, b with
    | Except.ok x, Except.ok y =>
      if h : x = y then isTrue (by rw [h]) else isFalse (by simp [h])
    | Except.error x, Except.error y =>
      if h : x = y then isTrue (by rw [h]) else isFalse (by simp [h])
    | Except.ok _, Except.error _ => isFalse (by simp)
    | Except.error _, Except.ok _ => isFalse (by simp)

/-- The CBC loop produces one ciphertext block per processed input block. -/
theorem cbcChain_length (enc : Block → Block → Block → Option Block) (lk : Block)
    (pt : Nat → Nat) :
    ∀ (n : Nat) (prev : Block) (i : Nat) (cs : List Block),
      cbcChain enc lk pt prev i n = some cs → cs.length = n := by
  intro n
  induction n with
  | zero =>
    intro prev i cs h
    simp only [cbcChain] at h
    cases h
    rfl
  | succ m ih =>
    intro prev i cs h
    cases henc : enc (blockAt pt i) prev lk with
    | none => simp [cbcChain, henc] at h
    | some c =>
      simp only [cbcChain, henc] at h
      cases hrec : cbcChain enc lk pt c (i + 1) m with
      | none => simp [hrec] at h
      | some cs2 =>
        simp only [hrec] at h
        cases h
        simp [ih c (i + 1) cs2 hrec]

/-- The CBC loop encrypts block `i + j` with the initialization vector
taken from the previous ciphertext block (`prev` for the first one). -/
theorem cbcChain_spec (enc : Block → Block → Block → Option Block) (lk : Block)
    (pt : Nat → Nat) :
    ∀ (n : Nat) (prev : Block) (i : Nat) (cs : List Block),
      cbcChain enc lk pt prev i n = some cs →
      ∀ j, j < n →
        enc (blockAt pt (i + j)) (if j = 0 then prev else cs.getD (j - 1) zeroBlock) lk
          = some (cs.getD j zeroBlock) := by
  intro n
  induction n with
  | zero => intro prev i cs _ j hj; omega
  | succ m ih =>
    intro prev i cs h j hj
    cases henc : enc (blockAt pt i) prev lk with
    | none => simp [cbcChain, henc] at h
    | some c =>
      simp only [cbcChain, henc] at h
      cases hrec : cbcChain enc lk pt c (i + 1) m with
      | none => simp [hrec] at h
      | some cs2 =>
        simp only [hrec] at h
        cases h
        cases j with
        | zero => simpa using henc
        | succ jj =>
          have hstep := ih c (i + 1) cs2 hrec jj (by omega)
          have harith : i + 1 + jj = i + (jj + 1) := by omega
          rw [harith] at hstep
          cases jj with
          | zero => simpa using hstep
          | succ kk => simpa using hstep

/-- When the AES core never fails, the CBC loop succeeds. -/
theorem cbcChain_total (enc : Block → Block → Block → Option Block) (lk : Block)
    (pt : Nat → Nat) (henc : ∀ d iv, (enc d iv lk).isSome) :
    ∀ (n : Nat) (prev : Block) (i : Nat), ∃ cs, cbcChain enc lk pt prev i n = some cs := by
  intro n
  induction n with
  | zero => intro prev i; exact ⟨[], rfl⟩
  | succ m ih =>
    intro prev i
    cases hc : enc (blockAt pt i) prev lk with
    | none => exact absurd (henc (blockAt pt i) prev) (by simp [hc])
    | some c =>
      obtain ⟨cs, hcs⟩ := ih c (i + 1)
      exact ⟨c :: cs, by simp only [cbcChain, hc, hcs]⟩

/-- The CBC loop reads the plaintext only inside the processed blocks. -/
theorem cbcChain_congr (enc : Block → Block → Block → Option Block) (lk : Block)
    (pt pt2 : Nat → Nat) :
    ∀ (n : Nat) (prev : Block) (i : Nat),
      (∀ a, 16 * i ≤ a → a < 16 * (i + n) → pt2 a = pt a) →
      cbcChain enc lk pt2 prev i n = cbcChain enc lk pt prev i n := by
  intro n
  induction n with
  | zero => intro prev i _; rfl
  | succ m ih =>
    intro prev i hagree
    have hblock : blockAt pt2 i = blockAt pt i := by
      funext j
      have hj := j.isLt
      simp only [blockAt, AES_BLOCK_SIZE]
      exact hagree (i * 16 + j.val) (by omega) (by omega)
    cases hc : enc (blockAt pt i) prev lk with
    | none => simp [cbcChain, hblock, hc]
    | some c =>
      simp only [cbcChain, hblock, hc]
      rw [ih c (i + 1) (fun a h1 h2 => hagree a (by omega) (by omega))]

/-- C1: for an input of length `16 * n`, `MCU_API_aes_128_cbc_encrypt`
processes the blocks strictly in order — block 0 is encrypted with an
all-zero initialization vector and every block `j > 0` with the ciphertext
of block `j - 1` as its initialization vector; the MCU API context is
returned untouched and the result is the same for any prior context, so
two calls with the same inputs produce the same output. -/
theorem mcu_aes_cbc_strict_chaining (enc : Block → Block → Block → Option Block)
    (nvm : NvmStore) (ctx : McuCtx) (pt : Nat → Nat) (n : Nat) (key : Block)
    (use_key : SfxCredentialsUseKey) (cs : List Block)
    (hok : (MCU_API_aes_128_cbc_encrypt enc nvm ctx pt (16 * n) key use_key).1
        = Except.ok cs) :
    ∃ lk, selectKey nvm key use_key = some lk
      ∧ cs.length = n
      ∧ (∀ j, j < n →
          enc (blockAt pt j) (if j = 0 then zeroBlock else cs.getD (j - 1) zeroBlock) lk
            = some (cs.getD j zeroBlock))
      ∧ (∀ ctx2 : McuCtx,
          MCU_API_aes_128_cbc_encrypt enc nvm ctx2 pt (16 * n) key use_key
            = (Except.ok cs, ctx2)) := by
  have h16 : 16 * n / AES_BLOCK_SIZE = n := by
    simp [AES_BLOCK_SIZE]
  cases hsel : selectKey nvm key use_key with
  | none => simp [MCU_API_aes_128_cbc_encrypt, hsel] at hok
  | some lk =>
    simp only [MCU_API_aes_128_cbc_encrypt, hsel, h16] at hok
    cases hchain : cbcChain enc lk pt zeroBlock 0 n with
    | none => simp [hchain] at hok
    | some cs2 =>
      simp only [hchain] at hok
      cases hok
      refine ⟨lk, rfl, cbcChain_length enc lk pt n zeroBlock 0 _ hchain, ?_, ?_⟩
      · intro j hj
        have := cbcChain_spec enc lk pt n zeroBlock 0 _ hchain j hj
        simpa using this
      · intro ctx2
        simp only [MCU_API_aes_128_cbc_encrypt, hsel, h16, hchain]

/-- Witness for C1: two 16-byte blocks under a concrete AES core
`enc d iv k = d + iv + k` (bytewise) and the key-in-argument mode. -/
theorem mcu_aes_cbc_strict_chaining_witness :
    ∃ lk, selectKey (fun _ => none) (fun _ => 1)
            SfxCredentialsUseKey.CREDENTIALS_KEY_IN_ARGUMENT = some lk
      ∧ ([fun t : Fin 16 => t.val + 1, fun t : Fin 16 => 2 * t.val + 18] :
            List Block).length = 2
      ∧ (∀ j, j < 2 →
          (fun d iv k => some (fun t : Fin 16 => d t + iv t + k t) : Block → Block → Block → Option Block)
              (blockAt (fun a => a) j)
              (if j = 0 then zeroBlock
               else ([fun t : Fin 16 => t.val + 1, fun t : Fin 16 => 2 * t.val + 18] :
                  List Block).getD (j - 1) zeroBlock)
              lk
            = some (([fun t : Fin 16 => t.val + 1, fun t : Fin 16 => 2 * t.val + 18] :
                List Block).getD j zeroBlock))
      ∧ (∀ ctx2 : McuCtx,
          MCU_API_aes_128_cbc_encrypt
              (fun d iv k => some (fun t : Fin 16 => d t + iv t + k t))
              (fun _ => none) ctx2 (fun a => a) (16 * 2) (fun _ => 1)
              SfxCredentialsUseKey.CREDENTIALS_KEY_IN_ARGUMENT
            = (Except.ok [fun t : Fin 16 => t.val + 1, fun t : Fin 16 => 2 * t.val + 18],
               ctx2)) :=
  mcu_aes_cbc_strict_chaining
    (fun d iv k => some (fun t : Fin 16 => d t + iv t + k t))
    (fun _ => none) ⟨0⟩ (fun a => a) 2 (fun _ => 1)
    SfxCredentialsUseKey.CREDENTIALS_KEY_IN_ARGUMENT
    [fun t : Fin 16 => t.val + 1, fun t : Fin 16 => 2 * t.val + 18]
    (by decide)

/-- C5: `MCU_API_aes_128_cbc_encrypt` selects the key solely from the
caller-supplied mode — `CREDENTIALS_PRIVATE_KEY` uses the 16 device-key
bytes read from `NVM_ADDRESS_SIGFOX_DEVICE_KEY` onward,
`CREDENTIALS_KEY_IN_ARGUMENT` uses the caller-supplied key argument, and
any other mode value fails with the AES error code without encrypting
anything (the result does not depend on the AES core). -/
theorem mcu_aes_key_selection (enc : Block → Block → Block → Option Block)
    (nvm : NvmStore) (ctx : McuCtx) (pt : Nat → Nat) (len : Nat) (key : Block) :
    (∀ dk : Block,
        (∀ j : Fin 16, nvm (NVM_ADDRESS_SIGFOX_DEVICE_KEY + j.val) = some (dk j)) →
        selectKey nvm key SfxCredentialsUseKey.CREDENTIALS_PRIVATE_KEY = some dk
        ∧ MCU_API_aes_128_cbc_encrypt enc nvm ctx pt len key
              SfxCredentialsUseKey.CREDENTIALS_PRIVATE_KEY
            = (match cbcChain enc dk pt zeroBlock 0 (len / AES_BLOCK_SIZE) with
               | none => (Except.error McuStatus.MCU_ERR_API_AES, ctx)
               | some cs => (Except.ok cs, ctx)))
    ∧ selectKey nvm key SfxCredentialsUseKey.CREDENTIALS_KEY_IN_ARGUMENT = some key
    ∧ (∀ v : Nat,
        MCU_API_aes_128_cbc_encrypt enc nvm ctx pt len key
            (SfxCredentialsUseKey.otherValue v)
          = (Except.error McuStatus.MCU_ERR_API_AES, ctx)) := by
  refine ⟨?_, rfl, fun v => rfl⟩
  intro dk hdk
  have hs : ∀ j : Fin 16, (nvm (NVM_ADDRESS_SIGFOX_DEVICE_KEY + j.val)).isSome := by
    intro j; rw [hdk j]; rfl
  have hsel : selectKey nvm key SfxCredentialsUseKey.CREDENTIALS_PRIVATE_KEY = some dk := by
    simp only [selectKey, readDeviceKey, dif_pos hs]
    congr 1
    funext j
    have h1 : some ((nvm (NVM_ADDRESS_SIGFOX_DEVICE_KEY + j.val)).get (hs j)) = some (dk j) := by
      rw [Option.some_get, hdk j]
    exact Option.some_injective _ h1
  exact ⟨hsel, by simp only [MCU_API_aes_128_cbc_encrypt, hsel]⟩

/-- Witness for C5: on the store mapping address `a` to byte `a * 2`, the
private-key mode selects the 16 bytes starting at address 4. -/
theorem mcu_aes_key_selection_witness :
    selectKey (fun a => some (a * 2)) (fun _ => 9)
        SfxCredentialsUseKey.CREDENTIALS_PRIVATE_KEY
      = some (fun j : Fin 16 => (NVM_ADDRESS_SIGFOX_DEVICE_KEY + j.val) * 2) :=
  ((mcu_aes_key_selection (fun _ _ _ => none) (fun a => some (a * 2)) ⟨0⟩
      (fun a => a) 32 (fun _ => 9)).1
    (fun j : Fin 16 => (NVM_ADDRESS_SIGFOX_DEVICE_KEY + j.val) * 2)
    (fun _ => rfl)).1

/-- C8: when `aes_block_len` is not a multiple of 16,
`MCU_API_aes_128_cbc_encrypt` encrypts only the first
`aes_block_len / 16` complete blocks, ignores the trailing input bytes
(the result depends only on the complete blocks), leaves the
corresponding output bytes unwritten, and still returns success; any
length below 16 returns success with no output produced. -/
theorem mcu_aes_partial_length_truncation (enc : Block → Block → Block → Option Block)
    (nvm : NvmStore) (ctx : McuCtx) (pt : Nat → Nat) (len : Nat) (key : Block)
    (use_key : SfxCredentialsUseKey) (lk : Block)
    (hkey : selectKey nvm key use_key = some lk)
    (henc : ∀ d iv, (enc d iv lk).isSome) :
    ∃ cs, (MCU_API_aes_128_cbc_encrypt enc nvm ctx pt len key use_key).1 = Except.ok cs
      ∧ cs.length = len / 16
      ∧ (∀ (out0 : Nat → Nat) (a : Nat), 16 * (len / 16) ≤ a →
          encryptedDataAfter out0 cs a = out0 a)
      ∧ (∀ pt2 : Nat → Nat, (∀ a, a < 16 * (len / 16) → pt2 a = pt a) →
          (MCU_API_aes_128_cbc_encrypt enc nvm ctx pt2 len key use_key).1 = Except.ok cs)
      ∧ (len < 16 → cs = []) := by
  obtain ⟨cs, hcs⟩ := cbcChain_total enc lk pt henc (len / AES_BLOCK_SIZE) zeroBlock 0
  have hlen : cs.length = len / 16 :=
    cbcChain_length enc lk pt (len / AES_BLOCK_SIZE) zeroBlock 0 cs hcs
  refine ⟨cs, ?_, hlen, ?_, ?_, ?_⟩
  · simp only [MCU_API_aes_128_cbc_encrypt, hkey, hcs]
  · intro out0 a ha
    have hidx : cs.length ≤ a / 16 := by
      rw [hlen]
      exact (Nat.le_div_iff_mul_le (by norm_num)).mpr (by omega)
    simp only [encryptedDataAfter]
    rw [List.getElem?_eq_none hidx]
  · intro pt2 hagree
    have hcong := cbcChain_congr enc lk pt pt2 (len / AES_BLOCK_SIZE) zeroBlock 0
      (fun a h1 h2 => hagree a (by simpa [AES_BLOCK_SIZE] using h2))
    simp only [MCU_API_aes_128_cbc_encrypt, hkey, hcong, hcs]
  · intro h16
    have h0 : len / 16 = 0 := Nat.div_eq_of_lt h16
    cases cs with
    | nil => rfl
    | cons c cs2 => rw [h0] at hlen; cases hlen

/-- Witness for C8: a 21-byte input under the key-in-argument mode and a
total AES core encrypts exactly one block. -/
theorem mcu_aes_partial_length_truncation_witness :
    ∃ cs, (MCU_API_aes_128_cbc_encrypt
            (fun d iv _ => some (fun t : Fin 16 => d t + iv t))
            (fun _ => none) ⟨0⟩ (fun a => a) 21 (fun _ => 0)
            SfxCredentialsUseKey.CREDENTIALS_KEY_IN_ARGUMENT).1 = Except.ok cs
      ∧ cs.length = 21 / 16
      ∧ (∀ (out0 : Nat → Nat) (a : Nat), 16 * (21 / 16) ≤ a →
          encryptedDataAfter out0 cs a = out0 a)
      ∧ (∀ pt2 : Nat → Nat, (∀ a, a < 16 * (21 / 16) → pt2 a = (fun a => a) a) →
          (MCU_API_aes_128_cbc_encrypt
            (fun d iv _ => some (fun t : Fin 16 => d t + iv t))
            (fun _ => none) ⟨0⟩ pt2 21 (fun _ => 0)
            SfxCredentialsUseKey.CREDENTIALS_KEY_IN_ARGUMENT).1 = Except.ok cs)
      ∧ (21 < 16 → cs = []) :=
  mcu_aes_partial_length_truncation
    (fun d iv _ => some (fun t : Fin 16 => d t + iv t))
    (fun _ => none) ⟨0⟩ (fun a => a) 21 (fun _ => 0)
    SfxCredentialsUseKey.CREDENTIALS_KEY_IN_ARGUMENT (fun _ => 0)
    rfl (fun _ _ => rfl)

/-- A zero remaining delay ends the loop at once, with any fuel. -/
theorem timerWaitLoop_zero (P : Nat) (rtcOk : Nat → Bool) :
    ∀ fuel k, timerWaitLoop P rtcOk fuel 0 k = some ([], true) := by
  intro fuel k
  cases fuel <;> simp [timerWaitLoop]

/-- With a positive refresh period, fuel equal to the remaining delay never
runs out: the loop always returns a result. -/
theorem timerWaitLoop_total (P : Nat) (hP : 0 < P) (rtcOk : Nat → Bool) :
    ∀ (fuel r k : Nat), r ≤ fuel →
      ∃ res, timerWaitLoop P rtcOk fuel r k = some res := by
  intro fuel
  induction fuel with
  | zero =>
    intro r k hr
    have hr0 : r = 0 := Nat.le_zero.mp hr
    exact ⟨([], true), by simp [timerWaitLoop, hr0]⟩
  | succ f ih =>
    intro r k hr
    by_cases hr0 : r = 0
    · exact ⟨([], true), by simp [timerWaitLoop, hr0]⟩
    · by_cases h1 : rtcOk k
      · by_cases h2 : rtcOk (k + 1)
        · obtain ⟨res, hres⟩ := ih (r - (if r > P then P else r)) (k + 2)
            (by by_cases hc : r > P <;> simp [hc] <;> omega)
          obtain ⟨evs, ok⟩ := res
          refine ⟨(TimEv.rtcStop :: TimEv.rtcStart (if r > P then P else r) :: TimEv.enterStop ::
                   TimEv.iwdgReload :: TimEv.clearWakeFlag :: TimEv.clearExtiFlags :: evs, ok), ?_⟩
          simp only [timerWaitLoop, hr0, if_false, h1, h2, if_true, hres]
        · exact ⟨([TimEv.rtcStop, TimEv.rtcStart (if r > P then P else r), TimEv.rtcStop], false),
            by simp [timerWaitLoop, hr0, h1, h2]⟩
      · exact ⟨([TimEv.rtcStop, TimEv.rtcStop], false),
          by simp [timerWaitLoop, hr0, h1]⟩

/-- On a successful loop run, the armed durations are exactly the
`min(remaining, P)` decomposition and the watchdog is reloaded once per
sub-interval. -/
theorem timerWaitLoop_success_trace (P : Nat) (rtcOk : Nat → Bool) :
    ∀ (fuel r k : Nat) (evs : List TimEv),
      timerWaitLoop P rtcOk fuel r k = some (evs, true) →
      startDurations evs = subDelays P fuel r
      ∧ reloadCount evs = (subDelays P fuel r).length := by
  intro fuel
  induction fuel with
  | zero =>
    intro r k evs h
    by_cases hr0 : r = 0
    · simp only [timerWaitLoop, hr0, if_true] at h
      cases h
      simp [startDurations, reloadCount, subDelays]
    · simp [timerWaitLoop, hr0] at h
  | succ f ih =>
    intro r k evs h
    by_cases hr0 : r = 0
    · simp only [timerWaitLoop, hr0, if_true] at h
      cases h
      simp [startDurations, reloadCount, subDelays, hr0]
    · by_cases h1 : rtcOk k
      · by_cases h2 : rtcOk (k + 1)
        · simp only [timerWaitLoop, hr0, if_false, h1, h2, if_true] at h
          cases hrec : timerWaitLoop P rtcOk f (r - (if r > P then P else r)) (k + 2) with
          | none => rw [hrec] at h; cases h
          | some res =>
            obtain ⟨evs2, ok2⟩ := res
            rw [hrec] at h
            simp only [Option.some.injEq, Prod.mk.injEq] at h
            obtain ⟨hevs, hok⟩ := h
            subst hok
            obtain ⟨hsd, hrc⟩ := ih (r - (if r > P then P else r)) (k + 2) evs2 hrec
            subst hevs
            constructor
            · simp only [startDurations, List.filterMap_cons] at hsd ⊢
              simp only [subDelays, hr0, if_false]
              rw [hsd]
            · simp only [reloadCount, List.filter_cons] at hrc ⊢
              simp only [subDelays, hr0, if_false]
              simp only [List.length_cons]
              simp at hrc ⊢
              omega
        · simp only [timerWaitLoop, hr0, if_false, h1, h2, if_true, if_false] at h
          cases h
      · simp only [timerWaitLoop, hr0, if_false, h1, if_false] at h
        cases h

/-- On a failed loop run, the last RTC operation of the trace is the
`errors`-path `RTC_stop_wakeup_timer`. -/
theorem timerWaitLoop_failure_laststop (P : Nat) (rtcOk : Nat → Bool) :
    ∀ (fuel r k : Nat) (evs : List TimEv),
      timerWaitLoop P rtcOk fuel r k = some (evs, false) →
      ∀ acc, List.foldl rtcTrack acc evs = some TimEv.rtcStop := by
  intro fuel
  induction fuel with
  | zero =>
    intro r k evs h
    by_cases hr0 : r = 0 <;> simp [timerWaitLoop, hr0] at h
  | succ f ih =>
    intro r k evs h
    by_cases hr0 : r = 0
    · simp [timerWaitLoop, hr0] at h
    · by_cases h1 : rtcOk k
      · by_cases h2 : rtcOk (k + 1)
        · simp only [timerWaitLoop, hr0, if_false, h1, h2, if_true] at h
          cases hrec : timerWaitLoop P rtcOk f (r - (if r > P then P else r)) (k + 2) with
          | none => rw [hrec] at h; cases h
          | some res =>
            obtain ⟨evs2, ok2⟩ := res
            rw [hrec] at h
            simp only [Option.some.injEq, Prod.mk.injEq] at h
            obtain ⟨hevs, hok⟩ := h
            subst hevs
            intro acc
            have hrec2 : timerWaitLoop P rtcOk f (r - (if r > P then P else r)) (k + 2)
                = some (evs2, false) := by rw [hrec, hok]
            simpa [rtcTrack, isRtcOp] using ih _ (k + 2) evs2 hrec2
              (some (TimEv.rtcStart (if r > P then P else r)))
        · simp only [timerWaitLoop, hr0, if_false, h1, h2, if_true, if_false] at h
          cases h
          intro acc
          simp [rtcTrack, isRtcOp]
      · simp only [timerWaitLoop, hr0, if_false, h1, if_false] at h
        cases h
        intro acc
        simp [rtcTrack, isRtcOp]

/-- On a successful loop run with a nonzero remaining delay, the last RTC
operation of the trace is the final `RTC_start_wakeup_timer` — the loop
exits with the timer still armed. -/
theorem timerWaitLoop_success_laststart (P : Nat) (rtcOk : Nat → Bool) :
    ∀ (fuel r k : Nat) (evs : List TimEv), r ≠ 0 →
      timerWaitLoop P rtcOk fuel r k = some (evs, true) →
      ∀ acc, ∃ d, List.foldl rtcTrack acc evs = some (TimEv.rtcStart d) := by
  intro fuel
  induction fuel with
  | zero =>
    intro r k evs hr0 h
    simp [timerWaitLoop, hr0] at h
  | succ f ih =>
    intro r k evs hr0 h
    by_cases h1 : rtcOk k
    · by_cases h2 : rtcOk (k + 1)
      · simp only [timerWaitLoop, hr0, if_false, h1, h2, if_true] at h
        cases hrec : timerWaitLoop P rtcOk f (r - (if r > P then P else r)) (k + 2) with
        | none => rw [hrec] at h; cases h
        | some res =>
          obtain ⟨evs2, ok2⟩ := res
          rw [hrec] at h
          simp only [Option.some.injEq, Prod.mk.injEq] at h
          obtain ⟨hevs, hok⟩ := h
          subst hevs
          subst hok
          intro acc
          by_cases hrem : r - (if r > P then P else r) = 0
          · rw [hrem, timerWaitLoop_zero] at hrec
            have hnil : evs2 = [] := by
              injection hrec with hrec2
              exact (congrArg Prod.fst hrec2).symm
            subst hnil
            exact ⟨if r > P then P else r, by simp [rtcTrack, isRtcOp]⟩
          · have := ih (r - (if r > P then P else r)) (k + 2) evs2 hrem hrec
            simpa [rtcTrack, isRtcOp] using
              this (some (TimEv.rtcStart (if r > P then P else r)))
      · simp only [timerWaitLoop, hr0, if_false, h1, h2, if_true, if_false] at h
        cases h
    · simp only [timerWaitLoop, hr0, if_false, h1, if_false] at h
      cases h

/-- With a positive refresh period and sufficient fuel, the sub-interval
decomposition sums exactly to the requested duration. -/
theorem subDelays_sum (P : Nat) (hP : 0 < P) :
    ∀ fuel r, r ≤ fuel → (subDelays P fuel r).sum = r := by
  intro fuel
  induction fuel with
  | zero =>
    intro r hr
    have : r = 0 := Nat.le_zero.mp hr
    simp [subDelays, this]
  | succ f ih =>
    intro r hr
    by_cases hr0 : r = 0
    · simp [subDelays, hr0]
    · simp only [subDelays, hr0, if_false, List.sum_cons]
      have := ih (r - (if r > P then P else r))
        (by by_cases hc : r > P <;> simp [hc] <;> omega)
      rw [this]
      by_cases hc : r > P <;> simp [hc] <;> omega

/-- Every sub-interval is at most the watchdog-refresh period. -/
theorem subDelays_le (P : Nat) :
    ∀ fuel r d, d ∈ subDelays P fuel r → d ≤ P := by
  intro fuel
  induction fuel with
  | zero => intro r d hd; simp [subDelays] at hd
  | succ f ih =>
    intro r d hd
    by_cases hr0 : r = 0
    · simp [subDelays, hr0] at hd
    · simp only [subDelays, hr0, if_false, List.mem_cons] at hd
      cases hd with
      | inl h => by_cases hc : r > P <;> simp [hc] at h <;> omega
      | inr h => exact ih _ d h

/-- A zero duration has an empty decomposition, with any fuel. -/
theorem subDelays_zero (P : Nat) : ∀ fuel, subDelays P fuel 0 = [] := by
  intro fuel
  cases fuel <;> simp [subDelays]

/-- The number of sub-intervals is the ceiling `⌈r / P⌉`. -/
theorem subDelays_length (P : Nat) (hP : 0 < P) :
    ∀ fuel r, r ≤ fuel → (subDelays P fuel r).length = (r + P - 1) / P := by
  intro fuel
  induction fuel with
  | zero =>
    intro r hr
    have hr0 : r = 0 := Nat.le_zero.mp hr
    subst hr0
    simp [subDelays, Nat.div_eq_of_lt (by omega : P - 1 < P)]
  | succ f ih =>
    intro r hr
    by_cases hr0 : r = 0
    · subst hr0
      simp [subDelays, Nat.div_eq_of_lt (by omega : P - 1 < P)]
    · simp only [subDelays, hr0, if_false, List.length_cons]
      by_cases hc : r > P
      · simp only [hc, if_true]
        rw [ih (r - P) (by omega)]
        have h1 : r - P + P - 1 = r - 1 := by omega
        have h2 : r + P - 1 = (r - 1) + P := by omega
        rw [h1, h2, Nat.add_div_right _ hP]
      · simp only [hc, if_false, Nat.sub_self]
        rw [subDelays_zero P f]
        have hup : r + P - 1 < 2 * P := by omega
        have hlo : 1 * P ≤ r + P - 1 := by omega
        rw [List.length_nil]
        exact (Nat.div_eq_of_lt_le hlo (by omega)).symm

/-- Counterexample to C2: with a stored duration of 1 second, a refresh
period of 10 seconds and every RTC call succeeding,
`MCU_API_timer_wait_for_end` returns success with the trace ending in
`RTC_start_wakeup_timer`, `PWR_enter_stop_mode` and the flag clears — no
`RTC_stop_wakeup_timer` is issued after the last arm, so the wake-up timer
is not disarmed on the success exit path. -/
theorem timer_wait_success_not_disarmed_counterexample :
    MCU_API_timer_wait_for_end 10 (fun _ => true) ⟨1⟩
      = some (([TimEv.iwdgReload, TimEv.rtcStop, TimEv.rtcStart 1, TimEv.enterStop,
                TimEv.iwdgReload, TimEv.clearWakeFlag, TimEv.clearExtiFlags],
               McuStatus.SFX_ERR_NONE), ⟨1⟩)
    ∧ timerDisarmedOnExit
        [TimEv.iwdgReload, TimEv.rtcStop, TimEv.rtcStart 1, TimEv.enterStop,
         TimEv.iwdgReload, TimEv.clearWakeFlag, TimEv.clearExtiFlags] = false := by
  constructor <;> decide

/-- C2 (amended): `MCU_API_timer_wait_for_end` returns either success or
the timer error code; an RTC arm/disarm failure makes it fail with the
timer error code, and on every failure exit the `errors` path issues
`RTC_stop_wakeup_timer` after the last timer use, so the wake-up timer is
disarmed before the call returns; on a success exit with a nonzero stored
duration the timer is not disarmed inside the call — the last RTC
operation issued is the final sub-interval's `RTC_start_wakeup_timer`
(disarming is left to `MCU_API_timer_stop`).  The stored context is
returned unchanged. -/
theorem timer_wait_disarm_on_error (P : Nat) (rtcOk : Nat → Bool) (ctx : McuCtx)
    (evs : List TimEv) (st : McuStatus) (ctx2 : McuCtx)
    (h : MCU_API_timer_wait_for_end P rtcOk ctx = some ((evs, st), ctx2)) :
    (st = McuStatus.SFX_ERR_NONE ∨ st = McuStatus.MCU_ERR_API_TIMER_END)
    ∧ (st = McuStatus.MCU_ERR_API_TIMER_END → timerDisarmedOnExit evs = true)
    ∧ (st = McuStatus.SFX_ERR_NONE → 0 < ctx.timer_duration_seconds →
        timerDisarmedOnExit evs = false)
    ∧ ctx2 = ctx := by
  cases hl : timerWaitLoop P rtcOk ctx.timer_duration_seconds ctx.timer_duration_seconds 0 with
  | none => simp [MCU_API_timer_wait_for_end, hl] at h
  | some res =>
    obtain ⟨evs1, ok⟩ := res
    simp only [MCU_API_timer_wait_for_end, hl, Option.some.injEq, Prod.mk.injEq] at h
    obtain ⟨⟨hevs, hst⟩, hctx⟩ := h
    subst hevs
    cases ok with
    | true =>
      refine ⟨Or.inl hst.symm, ?_, ?_, hctx.symm⟩
      · intro habs
        rw [habs] at hst
        cases hst
      · intro _ hdur
        obtain ⟨d, hd⟩ := timerWaitLoop_success_laststart P rtcOk
          ctx.timer_duration_seconds ctx.timer_duration_seconds 0 evs1
          (by omega) hl (rtcTrack none TimEv.iwdgReload)
        simp only [timerDisarmedOnExit, lastRtcOp, List.foldl_cons, hd]
    | false =>
      refine ⟨Or.inr hst.symm, ?_, ?_, hctx.symm⟩
      · intro _
        have hd := timerWaitLoop_failure_laststop P rtcOk
          ctx.timer_duration_seconds ctx.timer_duration_seconds 0 evs1 hl
          (rtcTrack none TimEv.iwdgReload)
        simp only [timerDisarmedOnExit, lastRtcOp, List.foldl_cons, hd]
      · intro habs
        rw [habs] at hst
        cases hst

/-- Witness for C2 (amended): with a 5-second duration and the first
`RTC_start_wakeup_timer` call failing, the call fails with the timer error
code and the trace is disarmed on exit. -/
theorem timer_wait_disarm_on_error_witness :
    (McuStatus.MCU_ERR_API_TIMER_END = McuStatus.SFX_ERR_NONE
      ∨ McuStatus.MCU_ERR_API_TIMER_END = McuStatus.MCU_ERR_API_TIMER_END)
    ∧ (McuStatus.MCU_ERR_API_TIMER_END = McuStatus.MCU_ERR_API_TIMER_END →
        timerDisarmedOnExit [TimEv.iwdgReload, TimEv.rtcStop, TimEv.rtcStart 5,
          TimEv.rtcStop] = true)
    ∧ (McuStatus.MCU_ERR_API_TIMER_END = McuStatus.SFX_ERR_NONE →
        0 < McuCtx.timer_duration_seconds ⟨5⟩ →
        timerDisarmedOnExit [TimEv.iwdgReload, TimEv.rtcStop, TimEv.rtcStart 5,
          TimEv.rtcStop] = false)
    ∧ (⟨5⟩ : McuCtx) = ⟨5⟩ :=
  timer_wait_disarm_on_error 10 (fun k => !(k == 1)) ⟨5⟩
    [TimEv.iwdgReload, TimEv.rtcStop, TimEv.rtcStart 5, TimEv.rtcStop]
    McuStatus.MCU_ERR_API_TIMER_END ⟨5⟩ (by decide)

/-- C3: for a duration `D` stored by `MCU_API_timer_start` and a positive
refresh period `P`, a successful `MCU_API_timer_wait_for_end` arms
consecutive sub-intervals equal to the `min(remaining, P)` decomposition
of `D` — each no longer than `P` and summing exactly to `D` — and reloads
the watchdog `⌈D / P⌉ + 1` times (hence at least `⌈D / P⌉` times) before
returning. -/
theorem timer_wait_watchdog_decomposition (P : Nat) (hP : 0 < P) (rtcOk : Nat → Bool)
    (ctx0 : McuCtx) (D : Nat) (evs : List TimEv) (ctx2 : McuCtx)
    (h : MCU_API_timer_wait_for_end P rtcOk (MCU_API_timer_start ctx0 D).2
          = some ((evs, McuStatus.SFX_ERR_NONE), ctx2)) :
    startDurations evs = subDelays P D D
    ∧ (subDelays P D D).sum = D
    ∧ (∀ d ∈ subDelays P D D, d ≤ P)
    ∧ reloadCount evs = (D + P - 1) / P + 1
    ∧ (D + P - 1) / P ≥ D / P := by
  have hctxD : (MCU_API_timer_start ctx0 D).2.timer_duration_seconds = D := rfl
  cases hl : timerWaitLoop P rtcOk D D 0 with
  | none =>
    rw [MCU_API_timer_wait_for_end, hctxD, hl] at h
    cases h
  | some res =>
    obtain ⟨evs1, ok⟩ := res
    rw [MCU_API_timer_wait_for_end, hctxD, hl] at h
    simp only [Option.some.injEq, Prod.mk.injEq] at h
    obtain ⟨⟨hevs, hst⟩, _⟩ := h
    have hok : ok = true := by
      cases ok with
      | true => rfl
      | false => cases hst
    subst hok
    subst hevs
    obtain ⟨hsd, hrc⟩ := timerWaitLoop_success_trace P rtcOk D D 0 evs1 hl
    refine ⟨?_, subDelays_sum P hP D D le_rfl, subDelays_le P D D, ?_, ?_⟩
    · simpa [startDurations] using hsd
    · have hl2 : reloadCount (TimEv.iwdgReload :: evs1) = reloadCount evs1 + 1 := by
        simp [reloadCount]
      rw [hl2, hrc, subDelays_length P hP D D le_rfl]
    · exact Nat.div_le_div_right (by omega)

/-- Witness for C3: a 25-second duration with a 10-second refresh period
decomposes into sub-intervals 10, 10, 5 and reloads the watchdog 4
times. -/
theorem timer_wait_watchdog_decomposition_witness :
    startDurations [TimEv.iwdgReload,
        TimEv.rtcStop, TimEv.rtcStart 10, TimEv.enterStop, TimEv.iwdgReload,
          TimEv.clearWakeFlag, TimEv.clearExtiFlags,
        TimEv.rtcStop, TimEv.rtcStart 10, TimEv.enterStop, TimEv.iwdgReload,
          TimEv.clearWakeFlag, TimEv.clearExtiFlags,
        TimEv.rtcStop, TimEv.rtcStart 5, TimEv.enterStop, TimEv.iwdgReload,
          TimEv.clearWakeFlag, TimEv.clearExtiFlags]
      = subDelays 10 25 25
    ∧ (subDelays 10 25 25).sum = 25
    ∧ (∀ d ∈ subDelays 10 25 25, d ≤ 10)
    ∧ reloadCount [TimEv.iwdgReload,
        TimEv.rtcStop, TimEv.rtcStart 10, TimEv.enterStop, TimEv.iwdgReload,
          TimEv.clearWakeFlag, TimEv.clearExtiFlags,
        TimEv.rtcStop, TimEv.rtcStart 10, TimEv.enterStop, TimEv.iwdgReload,
          TimEv.clearWakeFlag, TimEv.clearExtiFlags,
        TimEv.rtcStop, TimEv.rtcStart 5, TimEv.enterStop, TimEv.iwdgReload,
          TimEv.clearWakeFlag, TimEv.clearExtiFlags]
      = (25 + 10 - 1) / 10 + 1
    ∧ (25 + 10 - 1) / 10 ≥ 25 / 10 :=
  timer_wait_watchdog_decomposition 10 (by decide) (fun _ => true) ⟨0⟩ 25
    [TimEv.iwdgReload,
     TimEv.rtcStop, TimEv.rtcStart 10, TimEv.enterStop, TimEv.iwdgReload,
       TimEv.clearWakeFlag, TimEv.clearExtiFlags,
     TimEv.rtcStop, TimEv.rtcStart 10, TimEv.enterStop, TimEv.iwdgReload,
       TimEv.clearWakeFlag, TimEv.clearExtiFlags,
     TimEv.rtcStop, TimEv.rtcStart 5, TimEv.enterStop, TimEv.iwdgReload,
       TimEv.clearWakeFlag, TimEv.clearExtiFlags] ⟨25⟩ (by decide)

end Tkfx
